import Mathlib

/-!
Verification of madison-lake-levels.

This file embeds the code of `src/madison_lake_levels/scrape.py` and the
storage wrapper exercised by `src/madison_lake_levels/tests/test_db.py`
as executable Lean definitions, and proves the specified properties.

Conventions of the embedding:
* Python strings are processed as `List Char` via executable splitters so
  that every definition evaluates by kernel reduction.
* Heights and elevation datums are rationals (`Rat`): no float-specific
  behaviour (rounding, NaN payloads) is involved in the claims; `float(s)`
  is modelled by a decimal parser `parseFloat`.
* `pandas.DataFrame` is modelled by `DF`: an index (list of row labels)
  plus association list of named columns, each column a list of
  `Option Rat` positionally aligned with the index (`none` models NaN /
  missing).  Assigning a Series to a DataFrame column aligns the series
  to the existing index; when the DataFrame's index is empty the index of
  the assigned series is adopted (pandas `_ensure_valid_index`).
* The two HTTP responses are inputs of the embedded `scrape`: the JSON
  body already decoded into `TimeSeries` records, and the raw text of the
  RDB (tab-separated) site-metadata response.
-/

attribute [local semireducible] Rat.add Rat.mul Rat.inv Rat.sub

namespace MLL

/-- Split a list of characters at every character satisfying `p`
(model of Python `str.split(sep)` for a single separator and, after
filtering empties, of separator-less `str.split()`). -/
def splitP (p : Char → Bool) : List Char → List (List Char)
  | [] => [[]]
  | c :: cs =>
    match splitP p cs with
    | [] => [[]]
    | y :: ys => if p c then [] :: y :: ys else (c :: y) :: ys

/-- Model of Python `text.split('\n')`. -/
def pyLines (s : String) : List (List Char) :=
  splitP (fun c => c == '\n') s.toList

/-- Model of Python `str.split()`: split on whitespace runs, dropping
empty tokens. -/
def pySplit (l : List Char) : List (List Char) :=
  (splitP (fun c => c.isWhitespace) l).filter (fun t => t ≠ [])

/-- Model of Python `line.startswith('#')`. -/
def startsWithHash : List Char → Bool
  | '#' :: _ => true
  | _ => false

/-- Elementwise effectful map into `Option` (models a Python list
comprehension / `Series.apply` whose body may raise). -/
def mapO (f : α → Option β) : List α → Option (List β)
  | [] => some []
  | a :: as =>
    match f a, mapO f as with
    | some b, some bs => some (b :: bs)
    | _, _ => none

/-- Elementwise effectful map into `Except`, failing at the first
element whose image fails. -/
def mapE (f : α → Except ε β) : List α → Except ε (List β)
  | [] => .ok []
  | a :: as =>
    match f a, mapE f as with
    | .ok b, .ok bs => .ok (b :: bs)
    | .error e, _ => .error e
    | .ok _, .error e => .error e

/-- First-occurrence-ordered key list (model of Python dict key order). -/
def dedupKeysFirst : List String → List String
  | [] => []
  | k :: rest => k :: (dedupKeysFirst rest).filter (fun x => x ≠ k)

/-- Association-list lookup (first match). -/
def alookup (d : List (String × Rat)) (t : String) : Option Rat :=
  (d.find? (fun p => p.1 == t)).map (fun p => p.2)

/-- Model of Python `dict(zip(keys, vals))` on an association list:
keys in first-occurrence order, each mapped to its last value. -/
def pyDict (s : List (String × Rat)) : List (String × Rat) :=
  (dedupKeysFirst (s.map (fun p => p.1))).filterMap
    (fun k => (((s.filter (fun p => p.1 == k)).getLast?).map (fun p => (k, p.2))))

/-- Does `pat` occur at the head of `l`? -/
def leadsWith : List Char → List Char → Bool
  | [], _ => true
  | _ :: _, [] => false
  | a :: as, b :: bs => a == b && leadsWith as bs

/-- Does `pat` occur contiguously anywhere in `l`? -/
def hasSub (pat : List Char) : List Char → Bool
  | [] => leadsWith pat []
  | c :: ls => leadsWith pat (c :: ls) || hasSub pat ls

/-- Lexicographic order on character lists (order of ISO-8601 date
prefixes agrees with chronological order). -/
def lexLe : List Char → List Char → Bool
  | [], _ => true
  | _ :: _, [] => false
  | a :: as, b :: bs => if a < b then true else if a = b then lexLe as bs else false

/-- Decimal digit character of `n < 10`. -/
def digitChar (n : Nat) : Char :=
  Char.ofNat ('0'.toNat + n)

/-- Decimal digits, most significant first, with explicit fuel (the
fuel makes the recursion structural, so that it evaluates by kernel
reduction); `natCharsAux fuel n` is correct whenever `n < fuel`. -/
def natCharsAux : Nat → Nat → List Char
  | 0, _ => []
  | fuel + 1, n =>
    if n < 10 then [digitChar n]
    else natCharsAux fuel (n / 10) ++ [digitChar (n % 10)]

/-- Decimal digits of a natural number, most significant first. -/
def natChars (n : Nat) : List Char :=
  natCharsAux (n + 1) n

/-- Left-pad with `'0'` to width `k` (model of zero-padded `strftime`
fields). -/
def padZ (k : Nat) (l : List Char) : List Char :=
  List.replicate (k - l.length) '0' ++ l

/-- Value of a list of decimal digit characters. -/
def digitsVal (l : List Char) : Nat :=
  l.foldl (fun acc c => acc * 10 + (c.toNat - '0'.toNat)) 0

/-- Model of Python `float(s)` restricted to decimal literals:
optional sign, digits with at most one decimal point, at least one
digit.  Returns `none` where `float` raises `ValueError`. -/
def parseFloat (s : List Char) : Option Rat :=
  let (sgn, rest) :=
    match s with
    | '-' :: r => ((-1 : Rat), r)
    | '+' :: r => ((1 : Rat), r)
    | r => ((1 : Rat), r)
  match (splitP (fun c => c == '.') rest) with
  | [ip] =>
    if ip ≠ [] ∧ ip.all (fun c => c.isDigit) then
      some (sgn * (digitsVal ip : Rat))
    else none
  | [ip, fp] =>
    if (ip ++ fp) ≠ [] ∧ (ip ++ fp).all (fun c => c.isDigit) then
      some (sgn * ((digitsVal ip : Rat) + (digitsVal fp : Rat) / ((10 : Rat) ^ fp.length)))
    else none
  | _ => none

end MLL

namespace MLL

/-! ## The fetcher: `scrape.py` -/

/-- Errors surfaced by the embedded `scrape`.  `invalidArg` is the
explicit `ValueError` raised for `end` without `start`; `parseFail`
covers exceptions raised while interpreting response data
(`IndexError` from `name.split()[1]`, `ValueError` from `float`, empty
csv data); `keyFail` is a pandas `KeyError` (missing column); and
`assertFail` is the `assert len(times) == len(gage_heights)` failure. -/
inductive ScrapeErr where
  | invalidArg
  | parseFail
  | keyFail
  | assertFail
deriving DecidableEq, Repr

/-- A calendar date, as carried by a Python `datetime` (which enforces
`1 <= year <= 9999`, `1 <= month <= 12`, `1 <= day <= 31`). -/
structure Date where
  year : Nat
  month : Nat
  day : Nat
deriving DecidableEq, Repr

/-- The bounds Python's `datetime` constructor enforces on its fields. -/
def Date.Valid (d : Date) : Prop :=
  1 ≤ d.year ∧ d.year ≤ 9999 ∧ 1 ≤ d.month ∧ d.month ≤ 12 ∧ 1 ≤ d.day ∧ d.day ≤ 31

instance (d : Date) : Decidable d.Valid := by
  unfold Date.Valid
  infer_instance

/-- Model of `dt.strftime('%Y-%m-%d')`: zero-padded four-digit year,
two-digit month and day. -/
def fmtDate (d : Date) : List Char :=
  padZ 4 (natChars d.year) ++ '-' :: (padZ 2 (natChars d.month) ++ '-' :: padZ 2 (natChars d.day))

/-- The `lake_name_to_usgs_site_num` dict of `scrape.py` line 50, in
insertion order. -/
def lakeNameToUsgsSiteNum : List (String × String) :=
  [("MENDOTA", "05428000"),
   ("MONONA", "05429000"),
   ("WAUBESA", "05429485"),
   ("KEGONSA", "425715089164700")]

/-- The comma-joined site list `sites = ','.join(...)` of line 56. -/
def sitesChars : List Char :=
  List.intercalate [','] (lakeNameToUsgsSiteNum.map (fun p => p.2.toList))

/-- The query-argument piece `'&startDT={}'.format(...)` of line 40. -/
def startDTArg (d : Date) : List Char :=
  "&startDT=".toList ++ fmtDate d

/-- The query-argument piece `'&endDT={}'.format(...)` of line 47. -/
def endDTArg (d : Date) : List Char :=
  "&endDT=".toList ++ fmtDate d

/-- The full time-series request URL `base_url + url_args` for given
start/end argument pieces (lines 58-59). -/
def urlOf (startArg endArg : List Char) : List Char :=
  "http://waterservices.usgs.gov/nwis/iv/?".toList ++
    ("&sites=".toList ++ sitesChars ++ "&format=json".toList ++ startArg ++ endArg)

/-- Lines 36-61 of `scrape.py` up to the first network call: compute
`start_arg` and `end_arg` (raising `ValueError` when `end` is given
without `start`) and build the request URL. -/
def buildUrl (start stop : Option Date) : Except ScrapeErr (List Char) :=
  let startArg := match start with
    | none => []
    | some d => startDTArg d
  match stop with
  | none => .ok (urlOf startArg [])
  | some d =>
    match start with
    | none => .error .invalidArg
    | some _ => .ok (urlOf startArg (endDTArg d))

/-- One entry of `ts['values'][0]['value']` in the JSON response: a
`dateTime` string and a `value` string (parsed by `float` in the code). -/
structure TSValue where
  dateTime : String
  value : String
deriving DecidableEq, Repr

/-- One entry of `d['value']['timeSeries']` in the JSON response,
restricted to the fields the code reads. -/
structure TimeSeries where
  siteName : String
  values : List TSValue
deriving DecidableEq, Repr

/-- The function `_format_usgs_lake_names` (line 11):
`name.split()[1].lower()`.  `none` models the `IndexError` raised when
the display name has fewer than two whitespace-separated tokens. -/
def formatName (name : List Char) : Option String :=
  match pySplit name with
  | _ :: t :: _ => some (String.mk (t.map Char.toLower))
  | _ => none

/-- The `(dateTime, gage height)` pairs of one series, i.e.
`zip(times, gage_heights)` (lines 67-68); `none` when some `float(...)`
raises. -/
def seriesPairs (ts : TimeSeries) : Option (List (String × Rat)) :=
  (mapO (fun v => parseFloat v.value.toList) ts.values).map
    (fun hs => (ts.values.map (fun v => v.dateTime)).zip hs)

/-- The embedded DataFrame: a row index and named columns positionally
aligned with it (`none` cells model NaN). -/
structure DF where
  index : List String
  cols : List (String × List (Option Rat))
deriving DecidableEq, Repr

/-- Replace the column `name` if present, otherwise append it. -/
def updateAssoc (cols : List (String × List (Option Rat))) (name : String)
    (c : List (Option Rat)) : List (String × List (Option Rat)) :=
  if cols.any (fun p => p.1 == name) then
    cols.map (fun p => if p.1 == name then (p.1, c) else p)
  else cols ++ [(name, c)]

/-- Model of `df[name] = pd.Series(dict)` (line 70) for the dictionary
`d` (unique keys): pandas aligns the assigned series to the existing
index; if the DataFrame's index is empty, the series' index is adopted
and any existing columns are reindexed (to all-NaN). -/
def DF.setCol (df : DF) (name : String) (d : List (String × Rat)) : DF :=
  if df.index.isEmpty then
    ⟨d.map (fun p => p.1),
     updateAssoc (df.cols.map (fun p => (p.1, d.map (fun _ => (none : Option Rat)))))
       name (d.map (fun p => some p.2))⟩
  else
    ⟨df.index, updateAssoc df.cols name (df.index.map (fun t => alookup d t))⟩

/-- The body of the `for ts in d['value']['timeSeries']` loop
(lines 64-70): derive the lake name, parse the gage heights, check the
length assertion, and assign the column. -/
def processTS (df : DF) (ts : TimeSeries) : Except ScrapeErr DF :=
  match formatName ts.siteName.toList with
  | none => .error .parseFail
  | some lake =>
    match mapO (fun v => parseFloat v.value.toList) ts.values with
    | none => .error .parseFail
    | some gageHeights =>
      let times := ts.values.map (fun v => v.dateTime)
      if times.length = gageHeights.length then
        .ok (df.setCol lake (pyDict (times.zip gageHeights)))
      else .error .assertFail

/-- Error-propagating fold (sequencing of a Python `for` loop whose
body may raise). -/
def foldE (f : β → α → Except ScrapeErr β) : β → List α → Except ScrapeErr β
  | b, [] => .ok b
  | b, a :: as =>
    match f b a with
    | .ok b2 => foldE f b2 as
    | .error e => .error e

/-- Lines 63-70: `df = pd.DataFrame({})` followed by the time-series
loop. -/
def buildDF (series : List TimeSeries) : Except ScrapeErr DF :=
  foldE processTS ⟨[], []⟩ series

/-- Cell of the `i`-th position of a list of optional values. -/
def cellAt (c : List (Option Rat)) (i : Nat) : Option Rat :=
  (c.get? i).join

/-- The column of `df` named `L`, if present. -/
def DF.colOf (df : DF) (L : String) : Option (List (Option Rat)) :=
  (df.cols.find? (fun p => p.1 == L)).map (fun p => p.2)

/-- The value stored in `df` for lake `L` at row label `t`; `none` when
the column or the row is absent, or the cell is NaN. -/
def DF.cell (df : DF) (L t : String) : Option Rat :=
  match df.colOf L, df.index.findIdx? (fun u => u == t) with
  | some c, some i => cellAt c i
  | _, _ => none

/-- Field `i` of a tab-split row (pandas pads short rows with NaN; a
missing field is modelled as the empty string, on which both
`formatName` and `parseFloat` fail like their Python counterparts). -/
def cellStr (r : List (List Char)) (i : Nat) : List Char :=
  (r.get? i).getD []

/-- The tab-separated-table stage of lines 76-85 of `scrape.py`, on
the already-filtered lines: `pd.read_csv(..., delimiter='\t')` takes
the first line as header and tab-splits the rest, the first data row
is dropped (line 81, `datum.iloc[1:]`), `_format_usgs_lake_names` is
applied to the `station_nm` column (line 82) and `float` to the
`alt_va` column (line 84), yielding the `(lake name, datum)` pairs
iterated by line 85. -/
def datumCore (kept : List (List Char)) : Except ScrapeErr (List (String × Rat)) :=
  match kept with
  | [] => .error .parseFail
  | header :: dataLines =>
    let hdr := (splitP (fun c => c == '\t') header).map String.mk
    let rows := (dataLines.map (splitP (fun c => c == '\t'))).drop 1
    match hdr.findIdx? (fun h => h == "station_nm") with
    | none => .error .keyFail
    | some si =>
      match mapO (fun r => formatName (cellStr r si)) rows with
      | none => .error .parseFail
      | some names =>
        match hdr.findIdx? (fun h => h == "alt_va") with
        | none => .error .keyFail
        | some ai =>
          match mapO (fun r => parseFloat (cellStr r ai)) rows with
          | none => .error .parseFail
          | some alts => .ok (names.zip alts)

/-- Lines 75-85 on a list of response lines: discard the `#`-prefixed
lines (line 75) and the blank lines (`read_csv` default
`skip_blank_lines`), and hand the rest to the tab-separated-table
stage. -/
def datumFromLines (lines : List (List Char)) : Except ScrapeErr (List (String × Rat)) :=
  datumCore ((lines.filter (fun l => ¬ startsWithHash l)).filter (fun l => l ≠ []))

/-- Lines 75-85 on the raw response text: the text is split into lines
once; `read_csv` re-splits the joined hash-free text, recovering
exactly the hash-free lines (none of them contains a newline). -/
def datumList (text : String) : Except ScrapeErr (List (String × Rat)) :=
  datumFromLines (pyLines text)

/-- The effect of one `df[name] += datum_elevation` (line 86) on the
columns: add `e` to every cell of the column `name` (NaN, i.e. `none`,
absorbs). -/
def bumpCol (cols : List (String × List (Option Rat))) (name : String) (e : Rat) :
    List (String × List (Option Rat)) :=
  cols.map (fun q =>
    if q.1 == name then (q.1, q.2.map (fun o => o.map (fun x => x + e))) else q)

/-- The `for name, datum_elevation in datum['alt_va'].iteritems()` loop
(lines 85-86): `df[name] += datum_elevation` adds the datum to every
cell of column `name` (NaN absorbs), and raises a `KeyError` when the
column does not exist. -/
def addDatum (df : DF) (datum : List (String × Rat)) : Except ScrapeErr DF :=
  foldE
    (fun df2 p =>
      if df2.cols.any (fun q => q.1 == p.1) then
        .ok ⟨df2.index, bumpCol df2.cols p.1 p.2⟩
      else .error .keyFail)
    df datum

/-- The function `scrape` of `scrape.py`, with the two network
responses as inputs: validate the arguments and build the request URL
(lines 36-61), build the per-lake DataFrame from the decoded JSON
response (lines 62-70), parse the site-metadata (RDB) response text
(lines 72-84), and add each lake's elevation datum to its column
(lines 85-86).  The final `pd.to_datetime(df.index, utc=True)`
(line 88) converts the labels in place and is modelled as the
identity on the index. -/
def scrape (start stop : Option Date) (tsResp : List TimeSeries) (datumText : String) :
    Except ScrapeErr DF :=
  match buildUrl start stop with
  | .error e => .error e
  | .ok _url =>
    match buildDF tsResp with
    | .error e => .error e
    | .ok df =>
      match datumList datumText with
      | .error e => .error e
      | .ok datum => addDatum df datum

/-- Does the ISO-8601 timestamp string `t` fall within the inclusive
date range `[d1, d2]`?  Compares the ten-character date prefix
lexicographically, which agrees with chronological order for this
fixed-width format. -/
def tsInRange (t : String) (d1 d2 : Date) : Bool :=
  lexLe (fmtDate d1) (t.toList.take 10) && lexLe (t.toList.take 10) (fmtDate d2)

/-- The sequence of digit runs of fixed widths that makes up a
`YYYY-MM-DD` date string. -/
def IsYMD (l : List Char) : Prop :=
  ∃ ys ms ds : List Char,
    l = ys ++ '-' :: (ms ++ '-' :: ds) ∧
    ys.length = 4 ∧ ms.length = 2 ∧ ds.length = 2 ∧
    (∀ c ∈ ys ++ ms ++ ds, c.isDigit = true)

/-! ## The store: `madison_lake_levels.db`

The module `db.py` itself is not under `src/`; only its test suite
`tests/test_db.py` is.  The store is therefore modelled from the spec. -/

/-- Modelled from the spec: one row of the `levels` table of the store
(`db.py`, class `LakeLevelDB`, absent from `src/`) — "one table
`levels(timestamp UNIQUE, mendota, monona, waubesa, kegonsa)` — all
non-key columns are floating point". -/
structure DBRow where
  timestamp : String
  mendota : Rat
  monona : Rat
  waubesa : Rat
  kegonsa : Rat
deriving DecidableEq, Repr

/-- The store's single error condition: "UniquenessViolation: insertion
of a timestamp already present in the store" (`sqlite3.IntegrityError`
in `tests/test_db.py`). -/
inductive DBErr where
  | uniquenessViolation
deriving DecidableEq, Repr

/-- Modelled from the spec: the state of a freshly opened store
(`LakeLevelDB(path)` with no existing file) — the `levels` table with
no rows. -/
def emptyDB : List DBRow := []

/-- Modelled from the spec: `LakeLevelDB.insert` (absent from `src/`) —
"for each row in the input Table, insert a record (timestamp, four lake
values) into `levels`.  Fails with a UniquenessViolation condition if
any timestamp already exists in the table"; rows are inserted one by
one and the call stops at the first violating row, returning the store
state reached together with the error, if any. -/
def dbInsert (db : List DBRow) : List DBRow → List DBRow × Option DBErr
  | [] => (db, none)
  | r :: rest =>
    if (db.map (fun x => x.timestamp)).contains r.timestamp then
      (db, some .uniquenessViolation)
    else dbInsert (db ++ [r]) rest

/-- Modelled from the spec: `LakeLevelDB.to_df` (absent from `src/`) —
"reads all rows back, reconstructing the same row/column shape as the
original Table", in the storage engine's natural retrieval order
(insertion order). -/
def to_df (db : List DBRow) : List DBRow := db

/-! ## Spec-side definitions (for refinement claims only) -/

/-- Written from the spec's words for claim C7, one row of the table:
the pair (lake name derived from the row's `station_nm` field, float
of its `alt_va` field). -/
def pairRow (si ai : Nat) (r : List (List Char)) : Except ScrapeErr (String × Rat) :=
  match formatName (cellStr r si), parseFloat (cellStr r ai) with
  | some n, some a => .ok (n, a)
  | _, _ => .error .parseFail

/-- Written from the spec's words for claim C7, the table stage: with
the tab-separated table in hand, discard its first data row and turn
each remaining row into its (lake name, datum value) pair. -/
def specDatumCore (kept : List (List Char)) : Except ScrapeErr (List (String × Rat)) :=
  match kept with
  | [] => .error .parseFail
  | header :: dataLines =>
    let hdr := (splitP (fun c => c == '\t') header).map String.mk
    match hdr.findIdx? (fun h => h == "station_nm"), hdr.findIdx? (fun h => h == "alt_va") with
    | some si, some ai =>
      mapE (pairRow si ai) ((dataLines.map (splitP (fun c => c == '\t'))).drop 1)
    | _, _ => .error .keyFail

/-- Written from the spec's words for claim C7: "keeps exactly the
lines that do not start with `#`, parses the remaining text as a
tab-separated table, discards the first data row of that table, and
converts the `alt_va` column of the remaining rows to floating-point
datum values" — structured row by row, unlike the source's column-wise
passes. -/
def specDatumParse (text : String) : Except ScrapeErr (List (String × Rat)) :=
  specDatumCore (((pyLines text).filter (fun l => ¬ startsWithHash l)).filter (fun l => l ≠ []))

/-- The four lake names, as the spec lists the expected columns. -/
def fourLakes : List String := ["mendota", "monona", "waubesa", "kegonsa"]

/-- Total elevation datum the loop of lines 85-86 adds to column `L`:
the sum of the `alt_va` entries reported for `L` (a single `e` when
`L` is reported exactly once). -/
def sumFor (L : String) (datum : List (String × Rat)) : Rat :=
  ((datum.filter (fun p => p.1 == L)).map (fun p => p.2)).sum

/-! ## Concrete fixtures -/

/-- The single example row of `tests/test_db.py` (`setup_class`):
columns `['mendota', 'monona', 'waubesa', 'kegonsa']` with values
`0.0 .. 3.0` at `2018-10-01T00:00`. -/
def exRow : DBRow := ⟨"2018-10-01T00:00", 0, 1, 2, 3⟩

/-- A mocked decoded time-series response: one reading per lake for
two of the lakes. -/
def c5Resp : List TimeSeries :=
  [⟨"LAKE MENDOTA AT MADISON, WI", [⟨"2018-10-01T00:00", "5.0"⟩]⟩,
   ⟨"LAKE MONONA AT MADISON, WI", [⟨"2018-10-01T00:00", "7.0"⟩]⟩]

/-- A mocked site-metadata (RDB) response body matching `c5Resp`. -/
def c5Text : String :=
  "# comment\nagency_cd\tstation_nm\talt_va\n5s\t15s\t8s\nUSGS\tLAKE MENDOTA AT MADISON, WI\t845.20\nUSGS\tLAKE MONONA AT MADISON, WI\t2.0\n"

/-- The table produced from `c5Resp`/`c5Text` with no date bounds. -/
def c5DF : DF :=
  ⟨["2018-10-01T00:00"],
   [("mendota", [some ((4251 : Rat) / 5)]), ("monona", [some 9])]⟩

/-- A mocked time-series response in which the second series reports a
reading at a timestamp that the first series does not have. -/
def c3Resp : List TimeSeries :=
  [⟨"LAKE MENDOTA AT MADISON, WI", [⟨"2018-10-01T00:00", "5.0"⟩]⟩,
   ⟨"LAKE MONONA AT MADISON, WI",
     [⟨"2018-10-01T00:00", "7.0"⟩, ⟨"2018-10-02T00:00", "8.0"⟩]⟩]

/-- A mocked site-metadata response for `c3Resp`: datum `845.20` for
mendota and `2.0` for monona. -/
def c3Text : String :=
  "# comment\nagency_cd\tstation_nm\talt_va\n5s\t15s\t8s\nUSGS\tLAKE MENDOTA AT MADISON, WI\t845.20\nUSGS\tLAKE MONONA AT MADISON, WI\t2.0\n"

/-- The table `scrape` produces from `c3Resp`/`c3Text`: the index was
fixed by the first series, so monona's `2018-10-02` reading is gone. -/
def c3DF : DF :=
  ⟨["2018-10-01T00:00"],
   [("mendota", [some ((4251 : Rat) / 5)]), ("monona", [some 9])]⟩

/-- A mocked time-series response whose single site is not one of the
four lakes and whose reading is dated outside the requested range. -/
def c9Resp : List TimeSeries :=
  [⟨"LAKE FOO AT BAR, WI", [⟨"2019-06-01T00:00", "1.0"⟩]⟩]

/-- A mocked site-metadata response matching `c9Resp`. -/
def c9Text : String :=
  "# comment\nagency_cd\tstation_nm\talt_va\n5s\t15s\t8s\nUSGS\tLAKE FOO AT BAR, WI\t2.0\n"

/-- The table `scrape` produces from `c9Resp`/`c9Text`. -/
def c9DF : DF :=
  ⟨["2019-06-01T00:00"], [("foo", [some 3])]⟩

end MLL

namespace MLL

/-! ## Helper lemmas -/

theorem mapO_length (f : α → Option β) :
    ∀ (l : List α) (bs : List β), mapO f l = some bs → bs.length = l.length := by
  intro l
  induction l with
  | nil => intro bs h; simp [mapO] at h; simp [← h]
  | cons a as ih =>
    intro bs h
    simp only [mapO] at h
    cases hfa : f a with
    | none => rw [hfa] at h; exact absurd h (by simp)
    | some b =>
      rw [hfa] at h
      cases hm : mapO f as with
      | none => rw [hm] at h; exact absurd h (by simp)
      | some bs2 =>
        rw [hm] at h
        cases h
        simpa using ih bs2 hm

theorem dbInsert_fst_append :
    ∀ (t db : List DBRow), ∃ suf, (dbInsert db t).1 = db ++ suf := by
  intro t
  induction t with
  | nil => intro db; exact ⟨[], by simp [dbInsert]⟩
  | cons r rest ih =>
    intro db
    by_cases h : r.timestamp ∈ db.map (fun x => x.timestamp)
    · refine ⟨[], ?_⟩
      simp only [dbInsert]
      rw [if_pos (by simpa using h)]
      simp
    · obtain ⟨suf, hsuf⟩ := ih (db ++ [r])
      refine ⟨[r] ++ suf, ?_⟩
      simp only [dbInsert]
      rw [if_neg (by simpa using h), hsuf]
      simp

theorem dbInsert_conflict :
    ∀ (t db : List DBRow) (r : DBRow), r ∈ t →
      r.timestamp ∈ db.map (fun x => x.timestamp) →
      (dbInsert db t).2 = some .uniquenessViolation := by
  intro t
  induction t with
  | nil => intro db r hr _; cases hr
  | cons r0 rest ih =>
    intro db r hr hts
    by_cases h0 : r0.timestamp ∈ db.map (fun x => x.timestamp)
    · simp only [dbInsert]
      rw [if_pos (by simpa using h0)]
    · simp only [dbInsert]
      rw [if_neg (by simpa using h0)]
      rcases List.mem_cons.mp hr with rfl | hr2
      · exact absurd hts h0
      · exact ih (db ++ [r0]) r hr2
          (by rw [List.map_append]; exact List.mem_append_left _ hts)

end MLL

namespace MLL

/-! ## Claims -/

/-- C1: for every stored state and every table containing a timestamp
already present in the `levels` table, an insert raises a
UniquenessViolation; in particular, after a successful
`store.insert(T)` with `T` nonempty, a second `store.insert(T)` fails
with a UniquenessViolation and leaves the stored rows — hence the row
count — exactly as after the first call. -/
theorem claim_C1 :
    (∀ (db t : List DBRow) (r : DBRow), r ∈ t →
        r.timestamp ∈ db.map (fun x => x.timestamp) →
        (dbInsert db t).2 = some .uniquenessViolation) ∧
    (∀ (db t db1 : List DBRow), t ≠ [] → dbInsert db t = (db1, none) →
        dbInsert db1 t = (db1, some .uniquenessViolation)) := by
  constructor
  · intro db t r hr hts
    exact dbInsert_conflict t db r hr hts
  · intro db t db1 hne h1
    match t, hne with
    | r :: rest, _ =>
      have hfresh : r.timestamp ∉ db.map (fun x => x.timestamp) := by
        intro hmem
        have : dbInsert db (r :: rest) = (db, some .uniquenessViolation) := by
          simp only [dbInsert]
          rw [if_pos (by simpa using hmem)]
        rw [h1] at this
        simp at this
      have hrec : dbInsert (db ++ [r]) rest = (db1, none) := by
        have : dbInsert db (r :: rest) = dbInsert (db ++ [r]) rest := by
          simp only [dbInsert]
          rw [if_neg (by simpa using hfresh)]
        rw [← this, h1]
      have hmem1 : r.timestamp ∈ db1.map (fun x => x.timestamp) := by
        obtain ⟨suf, hsuf⟩ := dbInsert_fst_append rest (db ++ [r])
        have : db1 = db ++ [r] ++ suf := by rw [← hsuf, hrec]
        rw [this]
        simp
      simp only [dbInsert]
      rw [if_pos (by simpa using hmem1)]

/-- C1 witness: inserting the example row twice into a fresh store —
the second call fails with a UniquenessViolation and the store still
holds exactly the one row. -/
theorem claim_C1_witness :
    (dbInsert [exRow] [exRow]).2 = some .uniquenessViolation ∧
    dbInsert [exRow] [exRow] = ([exRow], some .uniquenessViolation) :=
  ⟨claim_C1.1 [exRow] [exRow] exRow (by simp) (by simp),
   claim_C1.2 emptyDB [exRow] [exRow] (by simp) rfl⟩

/-- C2: inserting any single-row table into a freshly opened store
succeeds, and reading the store back yields a table value-equal to the
input. -/
theorem claim_C2 (r : DBRow) :
    dbInsert emptyDB [r] = ([r], none) ∧ to_df (dbInsert emptyDB [r]).1 = [r] :=
  ⟨rfl, rfl⟩

/-- C4: calling scrape with `start=None` and any non-None `end` raises
`ValueError` while building the request, before any network call: the
argument check fails for every possible pair of responses, and already
in the URL-building stage that precedes the first `requests.post`. -/
theorem claim_C4 (e : Date) (tsResp : List TimeSeries) (datumText : String) :
    buildUrl none (some e) = .error .invalidArg ∧
    scrape none (some e) tsResp datumText = .error .invalidArg :=
  ⟨rfl, rfl⟩

/-- C5 counterexample: with `start=None` and `end=None` (the case
`X = None` of the claim), scrape does not fail at all — on a mocked
pair of responses it returns a table. -/
theorem claim_C5_counterexample :
    scrape none none c5Resp c5Text = .ok c5DF ∧
    scrape none none c5Resp c5Text ≠ .error .invalidArg := by
  refine ⟨rfl, ?_⟩
  intro h
  rw [show scrape none none c5Resp c5Text = Except.ok c5DF from rfl] at h
  exact Except.noConfusion h

/-- C5 amended: `scrape(end=X, start=None)` fails with `ValueError`
for every non-None `X`; with `X = None` the call proceeds normally
(the remote default of the most recent sample is used). -/
theorem claim_C5_amended (X : Date) (tsResp : List TimeSeries) (datumText : String) :
    scrape none (some X) tsResp datumText = .error .invalidArg :=
  rfl

/-- C6: the lake name the fetcher derives from a site display name is
the second whitespace-separated token of that name, lower-cased
(`none` exactly when no second token exists, where the code raises
`IndexError`). -/
theorem claim_C6 (name : List Char) :
    formatName name =
      ((pySplit name).get? 1).map (fun t => String.mk (t.map Char.toLower)) := by
  unfold formatName
  cases h : pySplit name with
  | nil => simp
  | cons a rest =>
    cases rest with
    | nil => simp
    | cons b rest2 => simp

/-- C10: the timestamp list and the gage-height list of a series are
built elementwise from the same `values` array, so they have equal
lengths whenever the heights parse, and the
`assert len(times) == len(gage_heights)` branch of `scrape` is
unreachable: `processTS` never returns the assertion failure. -/
theorem claim_C10 :
    (∀ (values : List TSValue) (hs : List Rat),
        mapO (fun v => parseFloat v.value.toList) values = some hs →
        (values.map (fun v => v.dateTime)).length = hs.length) ∧
    (∀ (df : DF) (ts : TimeSeries), processTS df ts ≠ .error .assertFail) := by
  constructor
  · intro values hs h
    rw [List.length_map]
    exact (mapO_length _ values hs h).symm
  · intro df ts
    unfold processTS
    cases hfn : formatName ts.siteName.toList with
    | none => simp
    | some lake =>
      cases hm : mapO (fun v => parseFloat v.value.toList) ts.values with
      | none => simp
      | some hs =>
        have hlen : (ts.values.map (fun v => v.dateTime)).length = hs.length := by
          rw [List.length_map]
          exact (mapO_length _ ts.values hs hm).symm
        simp [hlen]

/-- C10 witness: a concrete one-element series — the two lists have
equal length and the assertion branch is not taken. -/
theorem claim_C10_witness :
    (([⟨"2018-10-01T00:00", "5.0"⟩] : List TSValue).map (fun v => v.dateTime)).length =
      ([5] : List Rat).length ∧
    processTS ⟨[], []⟩ ⟨"LAKE MENDOTA AT MADISON, WI", [⟨"2018-10-01T00:00", "5.0"⟩]⟩ ≠
      .error .assertFail :=
  ⟨claim_C10.1 [⟨"2018-10-01T00:00", "5.0"⟩] [5] rfl, claim_C10.2 _ _⟩

end MLL

namespace MLL

theorem digitChar_isDigit (n : Nat) (h : n < 10) : (digitChar n).isDigit = true := by
  interval_cases n <;> decide

theorem natCharsAux_digits :
    ∀ (fuel n : Nat), n < fuel → ∀ c ∈ natCharsAux fuel n, c.isDigit = true := by
  intro fuel
  induction fuel with
  | zero => intro n h; omega
  | succ fu ih =>
    intro n hn c hc
    by_cases h10 : n < 10
    · simp only [natCharsAux, if_pos h10] at hc
      simp only [List.mem_singleton] at hc
      exact hc ▸ digitChar_isDigit n h10
    · simp only [natCharsAux, if_neg h10] at hc
      rcases List.mem_append.mp hc with h1 | h2
      · have hdiv : n / 10 < n := Nat.div_lt_self (by omega) (by omega)
        exact ih (n / 10) (by omega) c h1
      · simp only [List.mem_singleton] at h2
        exact h2 ▸ digitChar_isDigit (n % 10) (Nat.mod_lt _ (by omega))

theorem natCharsAux_len_le :
    ∀ (fuel k n : Nat), n < fuel → n < 10 ^ k → 1 ≤ k →
      (natCharsAux fuel n).length ≤ k := by
  intro fuel
  induction fuel with
  | zero => intro k n h; omega
  | succ fu ih =>
    intro k n hn hk h1
    by_cases h10 : n < 10
    · simp [natCharsAux, if_pos h10]
      omega
    · simp only [natCharsAux, if_neg h10, List.length_append, List.length_singleton]
      have hk2 : 2 ≤ k := by
        by_contra hlt
        have : k = 1 := by omega
        subst this
        simp at hk
        omega
      have hdivfuel : n / 10 < fu := by
        have := Nat.div_lt_self (show 0 < n by omega) (show 1 < 10 by omega)
        omega
      have hdivpow : n / 10 < 10 ^ (k - 1) := by
        rw [Nat.div_lt_iff_lt_mul (by omega)]
        have : 10 ^ (k - 1) * 10 = 10 ^ k := by
          rw [← pow_succ]
          congr 1
          omega
        omega
      have := ih (k - 1) (n / 10) hdivfuel hdivpow (by omega)
      omega

theorem padZ_length (k : Nat) (l : List Char) (h : l.length ≤ k) :
    (padZ k l).length = k := by
  simp [padZ]
  omega

theorem padZ_digits (k : Nat) (l : List Char) (h : ∀ c ∈ l, c.isDigit = true) :
    ∀ c ∈ padZ k l, c.isDigit = true := by
  intro c hc
  rcases List.mem_append.mp hc with h1 | h2
  · rw [List.eq_of_mem_replicate h1]
    decide
  · exact h c h2

theorem natChars_digits (n : Nat) : ∀ c ∈ natChars n, c.isDigit = true :=
  natCharsAux_digits (n + 1) n (by omega)

theorem natChars_len_le (k n : Nat) (hk : n < 10 ^ k) (h1 : 1 ≤ k) :
    (natChars n).length ≤ k :=
  natCharsAux_len_le (n + 1) k n (by omega) hk h1

/-- Any date a Python `datetime` can carry is rendered by the embedded
`strftime('%Y-%m-%d')` in `YYYY-MM-DD` shape. -/
theorem fmtDate_isYMD (d : Date) (h : d.Valid) : IsYMD (fmtDate d) := by
  obtain ⟨h1, h2, h3, h4, h5, h6⟩ := h
  refine ⟨padZ 4 (natChars d.year), padZ 2 (natChars d.month), padZ 2 (natChars d.day),
    rfl, ?_, ?_, ?_, ?_⟩
  · exact padZ_length 4 _ (natChars_len_le 4 d.year (by norm_num; omega) (by omega))
  · exact padZ_length 2 _ (natChars_len_le 2 d.month (by norm_num; omega) (by omega))
  · exact padZ_length 2 _ (natChars_len_le 2 d.day (by norm_num; omega) (by omega))
  · intro c hc
    rcases List.mem_append.mp hc with hc1 | hc2
    · rcases List.mem_append.mp hc1 with hy | hm
      · exact padZ_digits 4 _ (natChars_digits d.year) c hy
      · exact padZ_digits 2 _ (natChars_digits d.month) c hm
    · exact padZ_digits 2 _ (natChars_digits d.day) c hc2

theorem leadsWith_append (pat a b : List Char) (h : leadsWith pat a = true) :
    leadsWith pat (a ++ b) = true := by
  induction pat generalizing a with
  | nil => simp [leadsWith]
  | cons p ps ih =>
    cases a with
    | nil => simp [leadsWith] at h
    | cons c cs =>
      simp only [leadsWith, Bool.and_eq_true] at h
      simp only [List.cons_append, leadsWith, Bool.and_eq_true]
      exact ⟨h.1, ih cs h.2⟩

theorem hasSub_nil_pat (l : List Char) : hasSub [] l = true := by
  cases l <;> simp [hasSub, leadsWith]

theorem hasSub_append_left (pat a b : List Char) (h : hasSub pat a = true) :
    hasSub pat (a ++ b) = true := by
  induction a with
  | nil =>
    simp only [hasSub] at h
    cases pat with
    | nil => simp [List.nil_append]; exact hasSub_nil_pat b
    | cons p ps => simp [leadsWith] at h
  | cons c cs ih =>
    simp only [hasSub, Bool.or_eq_true] at h
    simp only [List.cons_append, hasSub, Bool.or_eq_true]
    rcases h with h1 | h2
    · exact Or.inl (leadsWith_append pat (c :: cs) b h1)
    · exact Or.inr (ih h2)

end MLL

namespace MLL

/-- C8: the time-series request URL contains the comma-joined list of
the four fixed site identifiers for every argument combination; the
URL is exactly the base plus sites plus format pieces with a
`&startDT=` piece appended exactly when `start` is given and a
`&endDT=` piece appended exactly when both are given (so with both
absent neither date parameter occurs anywhere in the URL), and each
date piece is formatted `YYYY-MM-DD`. -/
theorem claim_C8 :
    (buildUrl none none = .ok (urlOf [] []) ∧
      hasSub "startDT".toList (urlOf [] []) = false ∧
      hasSub "endDT".toList (urlOf [] []) = false) ∧
    (∀ d : Date, buildUrl (some d) none = .ok (urlOf (startDTArg d) [])) ∧
    (∀ d1 d2 : Date, buildUrl (some d1) (some d2) = .ok (urlOf (startDTArg d1) (endDTArg d2))) ∧
    (∀ startArg endArg : List Char, hasSub sitesChars (urlOf startArg endArg) = true) ∧
    (∀ d : Date, d.Valid → IsYMD (fmtDate d)) := by
  refine ⟨⟨rfl, by decide, by decide⟩, fun d => rfl, fun d1 d2 => rfl, ?_, fmtDate_isYMD⟩
  intro s e
  have h1 : hasSub sitesChars
      ("http://waterservices.usgs.gov/nwis/iv/?".toList ++ "&sites=".toList ++ sitesChars) =
      true := by decide
  have h2 : urlOf s e =
      ("http://waterservices.usgs.gov/nwis/iv/?".toList ++ "&sites=".toList ++ sitesChars) ++
        ("&format=json".toList ++ s ++ e) := by
    simp [urlOf, List.append_assoc]
  rw [h2]
  exact hasSub_append_left _ _ _ h1

/-- C8 witness: a concrete date — the URL built for it carries the
sites list and a `YYYY-MM-DD` start parameter. -/
theorem claim_C8_witness :
    IsYMD (fmtDate ⟨2020, 10, 5⟩) ∧
    buildUrl (some ⟨2020, 10, 5⟩) none = .ok (urlOf (startDTArg ⟨2020, 10, 5⟩) []) :=
  ⟨claim_C8.2.2.2.2 ⟨2020, 10, 5⟩ (by decide), claim_C8.2.1 ⟨2020, 10, 5⟩⟩

end MLL

namespace MLL

theorem mapO_cons_inv (f : α → Option β) (a : α) (as : List α) (bs : List β)
    (h : mapO f (a :: as) = some bs) :
    ∃ b bs2, f a = some b ∧ mapO f as = some bs2 ∧ bs = b :: bs2 := by
  simp only [mapO] at h
  cases hfa : f a with
  | none => rw [hfa] at h; simp at h
  | some b =>
    rw [hfa] at h
    cases hm : mapO f as with
    | none => rw [hm] at h; simp at h
    | some bs2 =>
      rw [hm] at h
      simp only [Option.some.injEq] at h
      exact ⟨b, bs2, rfl, rfl, h.symm⟩

theorem mapE_cons_ok_inv (f : α → Except ε β) (a : α) (as : List α) (bs : List β)
    (h : mapE f (a :: as) = .ok bs) :
    ∃ b bs2, f a = .ok b ∧ mapE f as = .ok bs2 ∧ bs = b :: bs2 := by
  simp only [mapE] at h
  cases hfa : f a with
  | error e => rw [hfa] at h; exact Except.noConfusion h
  | ok b =>
    rw [hfa] at h
    cases hm : mapE f as with
    | error e => rw [hm] at h; exact Except.noConfusion h
    | ok bs2 =>
      rw [hm] at h
      simp only [Except.ok.injEq] at h
      exact ⟨b, bs2, rfl, rfl, h.symm⟩

theorem pairRow_ok_inv (si ai : Nat) (r : List (List Char)) (b : String × Rat)
    (h : pairRow si ai r = .ok b) :
    formatName (cellStr r si) = some b.1 ∧ parseFloat (cellStr r ai) = some b.2 := by
  unfold pairRow at h
  cases hn : formatName (cellStr r si) with
  | none => rw [hn] at h; exact Except.noConfusion h
  | some n =>
    rw [hn] at h
    cases ha : parseFloat (cellStr r ai) with
    | none => rw [ha] at h; exact Except.noConfusion h
    | some a =>
      rw [ha] at h
      simp only [Except.ok.injEq] at h
      rw [← h]
      exact ⟨rfl, rfl⟩

theorem mapE_pairRow_of_mapO (si ai : Nat) :
    ∀ (rows : List (List (List Char))) (ns : List String) (as2 : List Rat),
      mapO (fun r => formatName (cellStr r si)) rows = some ns →
      mapO (fun r => parseFloat (cellStr r ai)) rows = some as2 →
      mapE (pairRow si ai) rows = .ok (ns.zip as2) := by
  intro rows
  induction rows with
  | nil =>
    intro ns as2 hn ha
    simp only [mapO, Option.some.injEq] at hn ha
    subst hn
    subst ha
    rfl
  | cons r rest ih =>
    intro ns as2 hn ha
    obtain ⟨n, ns2, hfr, hns, rfl⟩ := mapO_cons_inv _ _ _ _ hn
    obtain ⟨a2, as3, hga, has, rfl⟩ := mapO_cons_inv _ _ _ _ ha
    have hrow : pairRow si ai r = .ok (n, a2) := by
      simp [pairRow, hfr, hga]
    simp [mapE, hrow, ih ns2 as3 hns has]

theorem mapE_pairRow_inv (si ai : Nat) :
    ∀ (rows : List (List (List Char))) (l : List (String × Rat)),
      mapE (pairRow si ai) rows = .ok l →
      mapO (fun r => formatName (cellStr r si)) rows = some (l.map Prod.fst) ∧
      mapO (fun r => parseFloat (cellStr r ai)) rows = some (l.map Prod.snd) ∧
      l = (l.map Prod.fst).zip (l.map Prod.snd) := by
  intro rows
  induction rows with
  | nil =>
    intro l h
    simp only [mapE] at h
    have : l = [] := by
      cases h
      rfl
    subst this
    exact ⟨rfl, rfl, rfl⟩
  | cons r rest ih =>
    intro l h
    obtain ⟨b, bs2, hfr, hrest, rfl⟩ := mapE_cons_ok_inv _ _ _ _ h
    obtain ⟨h1, h2⟩ := pairRow_ok_inv si ai r b hfr
    obtain ⟨ih1, ih2, ih3⟩ := ih bs2 hrest
    refine ⟨?_, ?_, ?_⟩
    · simp [mapO, h1, ih1]
    · simp [mapO, h2, ih2]
    · simp only [List.map_cons, List.zip_cons_cons]
      rw [← ih3]

end MLL

namespace MLL

/-- The source's column-wise datum extraction and the spec's row-wise
description succeed on exactly the same tables, with the same result. -/
theorem datumCore_iff_spec (kept : List (List Char)) (l : List (String × Rat)) :
    datumCore kept = .ok l ↔ specDatumCore kept = .ok l := by
  cases kept with
  | nil =>
    constructor <;> intro h <;> exact Except.noConfusion h
  | cons header dataLines =>
    simp only [datumCore, specDatumCore]
    cases hsi : ((splitP (fun c => c == '\t') header).map String.mk).findIdx?
        (fun h => h == "station_nm") with
    | none => simp
    | some si =>
      simp only
      cases hai : ((splitP (fun c => c == '\t') header).map String.mk).findIdx?
          (fun h => h == "alt_va") with
      | none =>
        cases hn : mapO (fun r => formatName (cellStr r si))
            ((dataLines.map (splitP (fun c => c == '\t'))).drop 1) with
        | none => simp
        | some names => simp
      | some ai =>
        cases hn : mapO (fun r => formatName (cellStr r si))
            ((dataLines.map (splitP (fun c => c == '\t'))).drop 1) with
        | none =>
          simp only
          constructor
          · intro h; exact Except.noConfusion h
          · intro h
            obtain ⟨h1, _, _⟩ := mapE_pairRow_inv si ai _ l h
            rw [hn] at h1
            exact Option.noConfusion h1
        | some names =>
          cases ha : mapO (fun r => parseFloat (cellStr r ai))
              ((dataLines.map (splitP (fun c => c == '\t'))).drop 1) with
          | none =>
            simp only
            constructor
            · intro h
              rw [ha] at h
              exact Except.noConfusion h
            · intro h
              obtain ⟨_, h2, _⟩ := mapE_pairRow_inv si ai _ l h
              rw [ha] at h2
              exact Option.noConfusion h2
          | some alts =>
            simp only
            constructor
            · intro h
              rw [ha] at h
              have h2 : Except.ok (names.zip alts) = Except.ok (ε := ScrapeErr) l := h
              have hl : l = names.zip alts := by
                injection h2 with h2
                exact h2.symm
              subst hl
              exact mapE_pairRow_of_mapO si ai _ names alts hn ha
            · intro h
              obtain ⟨h1, h2, h3⟩ := mapE_pairRow_inv si ai _ l h
              rw [hn] at h1
              rw [ha] at h2
              injection h1 with h1
              injection h2 with h2
              rw [ha]
              show Except.ok (names.zip alts) = Except.ok l
              rw [h3, ← h1, ← h2]

end MLL

namespace MLL

/-- C7: the fetcher's datum parsing keeps exactly the lines that do
not start with `#` (dropping a `#`-line anywhere changes nothing),
parses the remaining text as a tab-separated table, discards the first
data row, and converts the `alt_va` column of the remaining rows to
floating-point datum values — that is, it succeeds exactly when the
spec's row-by-row description of those steps does, with the same
result. -/
theorem claim_C7 :
    (∀ (text : String) (l : List (String × Rat)),
        datumList text = .ok l ↔ specDatumParse text = .ok l) ∧
    (∀ (pre suf : List (List Char)) (c : List Char), startsWithHash c = true →
        datumFromLines (pre ++ c :: suf) = datumFromLines (pre ++ suf)) := by
  constructor
  · intro text l
    exact datumCore_iff_spec _ l
  · intro pre suf c h
    unfold datumFromLines
    congr 1
    simp [List.filter_append, h]

/-- C7 witness: dropping a concrete comment line from a concrete
response leaves the parsed datum table unchanged. -/
theorem claim_C7_witness :
    datumFromLines
        ["agency_cd\tstation_nm\talt_va".toList, "# note".toList,
          "5s\t15s\t8s".toList, "USGS\tLAKE MENDOTA AT MADISON, WI\t845.20".toList] =
      datumFromLines
        ["agency_cd\tstation_nm\talt_va".toList,
          "5s\t15s\t8s".toList, "USGS\tLAKE MENDOTA AT MADISON, WI\t845.20".toList] :=
  claim_C7.2 ["agency_cd\tstation_nm\talt_va".toList] ["5s\t15s\t8s".toList,
    "USGS\tLAKE MENDOTA AT MADISON, WI\t845.20".toList] "# note".toList rfl

end MLL

namespace MLL

/-! ## DataFrame lemmas -/

theorem find?_replace_of_any (cols : List (String × List (Option Rat))) (name : String)
    (c : List (Option Rat)) (h : cols.any (fun p => p.1 == name) = true) :
    (cols.map (fun p => if p.1 == name then (p.1, c) else p)).find? (fun p => p.1 == name) =
      some (name, c) := by
  induction cols with
  | nil => simp at h
  | cons q qs ih =>
    simp only [List.map_cons]
    by_cases hq : q.1 = name
    · have hhead : (if (q.1 == name) = true then (q.1, c) else q) = (q.1, c) :=
        if_pos (by simp [hq])
      rw [hhead, List.find?_cons_of_pos _ (by simp [hq]), hq]
    · have hqb : (q.1 == name) = false := by simpa using hq
      have hhead : (if (q.1 == name) = true then (q.1, c) else q) = q :=
        if_neg (by simp [hqb])
      rw [hhead, List.find?_cons_of_neg _ (by simp [hqb])]
      exact ih (by simpa [List.any_cons, hqb] using h)

theorem find?_append_fresh (cols : List (String × List (Option Rat))) (name : String)
    (c : List (Option Rat)) (h : cols.any (fun p => p.1 == name) = false) :
    (cols ++ [(name, c)]).find? (fun p => p.1 == name) = some (name, c) := by
  induction cols with
  | nil => simp
  | cons q qs ih =>
    simp only [List.any_cons, Bool.or_eq_false_iff] at h
    rw [List.cons_append, List.find?_cons_of_neg _ (by simp [h.1])]
    exact ih h.2

theorem find?_updateAssoc_self (cols : List (String × List (Option Rat))) (name : String)
    (c : List (Option Rat)) :
    (updateAssoc cols name c).find? (fun p => p.1 == name) = some (name, c) := by
  unfold updateAssoc
  by_cases h : cols.any (fun p => p.1 == name)
  · rw [if_pos h]
    exact find?_replace_of_any cols name c h
  · rw [if_neg h]
    refine find?_append_fresh cols name c ?_
    cases hb : cols.any (fun p => p.1 == name) with
    | false => rfl
    | true => exact absurd hb h

theorem find?_replace_other (cols : List (String × List (Option Rat))) (name L : String)
    (c : List (Option Rat)) (hne : name ≠ L) :
    (cols.map (fun p => if p.1 == name then (p.1, c) else p)).find? (fun p => p.1 == L) =
      cols.find? (fun p => p.1 == L) := by
  induction cols with
  | nil => simp
  | cons q qs ih =>
    simp only [List.map_cons]
    by_cases hqn : q.1 = name
    · have hhead : (if (q.1 == name) = true then (q.1, c) else q) = (q.1, c) :=
        if_pos (by simp [hqn])
      have hqLb : (q.1 == L) = false := by
        simp only [beq_eq_false_iff_ne]
        rw [hqn]
        exact hne
      rw [hhead, List.find?_cons_of_neg _ (by simp [hqLb]),
        List.find?_cons_of_neg _ (by simp [hqLb])]
      exact ih
    · have hhead : (if (q.1 == name) = true then (q.1, c) else q) = q :=
        if_neg (by simp [hqn])
      rw [hhead]
      by_cases hqL : q.1 = L
      · rw [List.find?_cons_of_pos _ (by simp [hqL]), List.find?_cons_of_pos _ (by simp [hqL])]
      · rw [List.find?_cons_of_neg _ (by simp [hqL]), List.find?_cons_of_neg _ (by simp [hqL])]
        exact ih

theorem find?_updateAssoc_other (cols : List (String × List (Option Rat))) (name L : String)
    (c : List (Option Rat)) (hne : name ≠ L) :
    (updateAssoc cols name c).find? (fun p => p.1 == L) = cols.find? (fun p => p.1 == L) := by
  unfold updateAssoc
  by_cases h : cols.any (fun p => p.1 == name)
  · rw [if_pos h]
    exact find?_replace_other cols name L c hne
  · rw [if_neg h, List.find?_append]
    have h1 : ([(name, c)].find? (fun p => p.1 == L)) = none := by
      simp only [List.find?_singleton]
      rw [if_neg (by simp [hne])]
    rw [h1]
    cases cols.find? (fun p => p.1 == L) <;> rfl

end MLL

namespace MLL

theorem cell_intro (df : DF) (L t : String) (c : List (Option Rat)) (i : Nat) (g : Rat)
    (hc : df.colOf L = some c) (hi : df.index.findIdx? (fun u => u == t) = some i)
    (hg : c.get? i = some (some g)) : df.cell L t = some g := by
  unfold DF.cell
  rw [hc, hi]
  show cellAt c i = some g
  unfold cellAt
  rw [hg]
  rfl

theorem cell_onto (df : DF) (L t : String) (g : Rat) (h : df.cell L t = some g) :
    ∃ c i, df.colOf L = some c ∧ df.index.findIdx? (fun u => u == t) = some i ∧
      c.get? i = some (some g) := by
  unfold DF.cell at h
  cases hc : df.colOf L with
  | none => rw [hc] at h; exact Option.noConfusion h
  | some c =>
    rw [hc] at h
    cases hi : df.index.findIdx? (fun u => u == t) with
    | none => rw [hi] at h; exact Option.noConfusion h
    | some i =>
      rw [hi] at h
      refine ⟨c, i, rfl, rfl, ?_⟩
      have h2 : (c.get? i).join = some g := h
      cases hg : c.get? i with
      | none => rw [hg] at h2; exact Option.noConfusion h2
      | some o =>
        rw [hg] at h2
        cases o with
        | none => exact Option.noConfusion h2
        | some x =>
          have hx : x = g := by simpa using h2
          rw [hx]

theorem findIdx?_mem_map (index : List String) (t : String) (f : String → Option Rat)
    (h : t ∈ index) :
    ∃ i, index.findIdx? (fun u => u == t) = some i ∧
      (index.map f).get? i = some (f t) := by
  induction index with
  | nil => cases h
  | cons u us ih =>
    by_cases hu : u = t
    · exact ⟨0, by simp [hu], by simp [hu]⟩
    · have hub : (u == t) = false := by simpa using hu
      have hmem : t ∈ us := by
        rcases List.mem_cons.mp h with rfl | hm
        · exact absurd rfl hu
        · exact hm
      obtain ⟨i, hidx, hget⟩ := ih hmem
      refine ⟨i + 1, ?_, by simpa using hget⟩
      rw [List.findIdx?_cons, if_neg (by simp [hub]), List.findIdx?_succ, hidx]
      rfl

theorem adopt_lookup (d : List (String × Rat)) (t : String) (g : Rat)
    (h : alookup d t = some g) :
    ∃ i, (d.map (fun p => p.1)).findIdx? (fun u => u == t) = some i ∧
      (d.map (fun p => some p.2)).get? i = some (some g) := by
  induction d with
  | nil => simp [alookup] at h
  | cons q qs ih =>
    by_cases hq : q.1 = t
    · have hh : alookup (q :: qs) t = some q.2 := by
        unfold alookup
        rw [List.find?_cons_of_pos _ (by simp [hq])]
        rfl
      have hg : q.2 = g := by
        rw [hh] at h
        simpa using h
      refine ⟨0, ?_, by simp [hg]⟩
      simp [List.findIdx?_cons, hq]
    · have hqb : (q.1 == t) = false := by simpa using hq
      have h2 : alookup qs t = some g := by
        unfold alookup at h ⊢
        rwa [List.find?_cons_of_neg _ (by simp [hqb])] at h
      obtain ⟨i, hidx, hget⟩ := ih h2
      refine ⟨i + 1, ?_, by simpa using hget⟩
      rw [List.map_cons, List.findIdx?_cons, if_neg (by simp [hqb]), List.findIdx?_succ, hidx]
      rfl

theorem setCol_index_nonempty (df : DF) (name : String) (d : List (String × Rat))
    (h : df.index.isEmpty = false) : (df.setCol name d).index = df.index := by
  simp [DF.setCol, h]

theorem setCol_self_nonempty (df : DF) (name : String) (d : List (String × Rat))
    (h : df.index.isEmpty = false) :
    (df.setCol name d).colOf name = some (df.index.map (fun t => alookup d t)) := by
  simp only [DF.setCol, h, Bool.false_eq_true, if_false, DF.colOf]
  rw [find?_updateAssoc_self]
  rfl

theorem setCol_other_nonempty (df : DF) (name L : String) (d : List (String × Rat))
    (h : df.index.isEmpty = false) (hne : name ≠ L) :
    (df.setCol name d).colOf L = df.colOf L := by
  simp only [DF.setCol, h, Bool.false_eq_true, if_false, DF.colOf]
  rw [find?_updateAssoc_other _ _ _ _ hne]

theorem setCol_index_empty (df : DF) (name : String) (d : List (String × Rat))
    (h : df.index.isEmpty = true) : (df.setCol name d).index = d.map (fun p => p.1) := by
  simp [DF.setCol, h]

theorem setCol_self_empty (df : DF) (name : String) (d : List (String × Rat))
    (h : df.index.isEmpty = true) :
    (df.setCol name d).colOf name = some (d.map (fun p => some p.2)) := by
  simp only [DF.setCol, h, if_true, DF.colOf]
  rw [find?_updateAssoc_self]
  rfl

end MLL

namespace MLL

theorem processTS_ok_inv (df df2 : DF) (ts : TimeSeries) (h : processTS df ts = .ok df2) :
    ∃ lake hs, formatName ts.siteName.toList = some lake ∧
      mapO (fun v => parseFloat v.value.toList) ts.values = some hs ∧
      df2 = df.setCol lake (pyDict ((ts.values.map (fun v => v.dateTime)).zip hs)) := by
  unfold processTS at h
  cases hfn : formatName ts.siteName.toList with
  | none => rw [hfn] at h; exact Except.noConfusion h
  | some lake =>
    rw [hfn] at h
    cases hm : mapO (fun v => parseFloat v.value.toList) ts.values with
    | none => rw [hm] at h; exact Except.noConfusion h
    | some hs =>
      rw [hm] at h
      have hlen : (ts.values.map (fun v => v.dateTime)).length = hs.length := by
        rw [List.length_map]
        exact (mapO_length _ _ _ hm).symm
      have h2 :
          (if (ts.values.map (fun v => v.dateTime)).length = hs.length then
            Except.ok (df.setCol lake
              (pyDict ((ts.values.map (fun v => v.dateTime)).zip hs)))
          else (Except.error ScrapeErr.assertFail : Except ScrapeErr DF)) = Except.ok df2 := h
      rw [if_pos hlen] at h2
      refine ⟨lake, hs, rfl, rfl, ?_⟩
      injection h2 with h2
      exact h2.symm

theorem foldE_cons_ok_inv (f : β → α → Except ScrapeErr β) (b c : β) (a : α) (l : List α)
    (h : foldE f b (a :: l) = .ok c) :
    ∃ b2, f b a = .ok b2 ∧ foldE f b2 l = .ok c := by
  unfold foldE at h
  cases hf : f b a with
  | error e => rw [hf] at h; exact Except.noConfusion h
  | ok b2 =>
    rw [hf] at h
    exact ⟨b2, rfl, h⟩

theorem foldE_nil_ok_inv (f : β → α → Except ScrapeErr β) (b c : β)
    (h : foldE f b [] = .ok c) : c = b := by
  unfold foldE at h
  injection h with h
  exact h.symm

theorem foldE_append_ok_inv (f : β → α → Except ScrapeErr β) :
    ∀ (l1 l2 : List α) (b c : β), foldE f b (l1 ++ l2) = .ok c →
      ∃ b2, foldE f b l1 = .ok b2 ∧ foldE f b2 l2 = .ok c := by
  intro l1
  induction l1 with
  | nil => intro l2 b c h; exact ⟨b, rfl, h⟩
  | cons a l1 ih =>
    intro l2 b c h
    rw [List.cons_append] at h
    obtain ⟨b2, hf, hrest⟩ := foldE_cons_ok_inv _ _ _ _ _ h
    obtain ⟨b3, h1, h2⟩ := ih l2 b2 c hrest
    refine ⟨b3, ?_, h2⟩
    unfold foldE
    rw [hf]
    exact h1

theorem cell_eq_of_colOf_index (df1 df0 : DF) (L t : String)
    (hc : df1.colOf L = df0.colOf L) (hi : df1.index = df0.index) :
    df1.cell L t = df0.cell L t := by
  unfold DF.cell
  rw [hc, hi]

theorem buildDF_post_preserve (L : String) :
    ∀ (post : List TimeSeries) (df0 df1 : DF),
      foldE processTS df0 post = .ok df1 →
      df0.index.isEmpty = false →
      (∀ ts ∈ post, formatName ts.siteName.toList ≠ some L) →
      df1.index = df0.index ∧ df1.colOf L = df0.colOf L := by
  intro post
  induction post with
  | nil =>
    intro df0 df1 h _ _
    rw [foldE_nil_ok_inv _ _ _ h]
    exact ⟨rfl, rfl⟩
  | cons ts rest ih =>
    intro df0 df1 h hne hnames
    obtain ⟨dfm, hstep, hrest⟩ := foldE_cons_ok_inv _ _ _ _ _ h
    obtain ⟨lake, hs, hfn, hm, rfl⟩ := processTS_ok_inv _ _ _ hstep
    have hlake : lake ≠ L := by
      intro hc
      exact (hnames ts (by simp)) (hc ▸ hfn)
    have hidx := setCol_index_nonempty df0 lake
      (pyDict ((ts.values.map (fun v => v.dateTime)).zip hs)) hne
    have hcol := setCol_other_nonempty df0 lake L
      (pyDict ((ts.values.map (fun v => v.dateTime)).zip hs)) hne hlake
    have hne2 : (df0.setCol lake
        (pyDict ((ts.values.map (fun v => v.dateTime)).zip hs))).index.isEmpty = false := by
      rw [hidx]
      exact hne
    obtain ⟨h1, h2⟩ := ih _ _ hrest hne2 (fun ts2 hm2 => hnames ts2 (by simp [hm2]))
    exact ⟨by rw [h1, hidx], by rw [h2, hcol]⟩

end MLL

namespace MLL

theorem bumpCol_find_other (cols : List (String × List (Option Rat))) (name L : String)
    (e : Rat) (hne : name ≠ L) :
    (bumpCol cols name e).find? (fun p => p.1 == L) = cols.find? (fun p => p.1 == L) := by
  unfold bumpCol
  induction cols with
  | nil => simp
  | cons q qs ih =>
    simp only [List.map_cons]
    by_cases hqn : q.1 = name
    · have hhead : (if (q.1 == name) = true then
          (q.1, q.2.map (fun o => o.map (fun x => x + e))) else q) =
          (q.1, q.2.map (fun o => o.map (fun x => x + e))) := if_pos (by simp [hqn])
      have hqLb : (q.1 == L) = false := by
        simp only [beq_eq_false_iff_ne]
        rw [hqn]
        exact hne
      rw [hhead, List.find?_cons_of_neg _ (by simp [hqLb]),
        List.find?_cons_of_neg _ (by simp [hqLb])]
      exact ih
    · have hhead : (if (q.1 == name) = true then
          (q.1, q.2.map (fun o => o.map (fun x => x + e))) else q) = q :=
        if_neg (by simp [hqn])
      rw [hhead]
      by_cases hqL : q.1 = L
      · rw [List.find?_cons_of_pos _ (by simp [hqL]), List.find?_cons_of_pos _ (by simp [hqL])]
      · rw [List.find?_cons_of_neg _ (by simp [hqL]), List.find?_cons_of_neg _ (by simp [hqL])]
        exact ih

theorem bumpCol_find_self (cols : List (String × List (Option Rat))) (name : String) (e : Rat) :
    ((bumpCol cols name e).find? (fun p => p.1 == name)).map (fun p => p.2) =
      ((cols.find? (fun p => p.1 == name)).map (fun p => p.2)).map
        (fun c => c.map (fun o => o.map (fun x => x + e))) := by
  unfold bumpCol
  induction cols with
  | nil => simp
  | cons q qs ih =>
    simp only [List.map_cons]
    by_cases hq : q.1 = name
    · have hhead : (if (q.1 == name) = true then
          (q.1, q.2.map (fun o => o.map (fun x => x + e))) else q) =
          (q.1, q.2.map (fun o => o.map (fun x => x + e))) := if_pos (by simp [hq])
      rw [hhead, List.find?_cons_of_pos _ (by simp [hq]), List.find?_cons_of_pos _ (by simp [hq])]
      rfl
    · have hhead : (if (q.1 == name) = true then
          (q.1, q.2.map (fun o => o.map (fun x => x + e))) else q) = q :=
        if_neg (by simp [hq])
      rw [hhead, List.find?_cons_of_neg _ (by simp [hq]), List.find?_cons_of_neg _ (by simp [hq])]
      exact ih

theorem bumpCol_keys (cols : List (String × List (Option Rat))) (name : String) (e : Rat) :
    (bumpCol cols name e).map (fun p => p.1) = cols.map (fun p => p.1) := by
  unfold bumpCol
  induction cols with
  | nil => simp
  | cons q qs ih =>
    simp only [List.map_cons]
    by_cases hq : q.1 = name
    · have hhead : (if (q.1 == name) = true then
          (q.1, q.2.map (fun o => o.map (fun x => x + e))) else q) =
          (q.1, q.2.map (fun o => o.map (fun x => x + e))) := if_pos (by simp [hq])
      rw [hhead]
      simpa using ih
    · have hhead : (if (q.1 == name) = true then
          (q.1, q.2.map (fun o => o.map (fun x => x + e))) else q) = q :=
        if_neg (by simp [hq])
      rw [hhead]
      simpa using ih

theorem map_map_optcol (o : Option (List (Option Rat))) (a b : Rat) :
    (o.map (fun c => c.map (fun o2 => o2.map (fun x => x + a)))).map
        (fun c => c.map (fun o2 => o2.map (fun x => x + b))) =
      o.map (fun c => c.map (fun o2 => o2.map (fun x => x + (a + b)))) := by
  cases o with
  | none => rfl
  | some c =>
    show some ((c.map (fun o2 => o2.map (fun x => x + a))).map
        (fun o2 => o2.map (fun x => x + b))) =
      some (c.map (fun o2 => o2.map (fun x => x + (a + b))))
    rw [List.map_map]
    congr 1
    apply List.map_congr_left
    intro o2 _
    cases o2 with
    | none => rfl
    | some x =>
      simp [add_assoc]

theorem addDatum_ok (datum : List (String × Rat)) :
    ∀ (df df2 : DF), addDatum df datum = .ok df2 →
      df2.index = df.index ∧
      ∀ L, df2.colOf L =
        (df.colOf L).map (fun c => c.map (fun o => o.map (fun x => x + sumFor L datum))) := by
  induction datum with
  | nil =>
    intro df df2 h
    have hdf : df2 = df := foldE_nil_ok_inv _ _ _ h
    subst hdf
    refine ⟨rfl, ?_⟩
    intro L
    have hz : sumFor L [] = 0 := by simp [sumFor]
    rw [hz]
    cases hc : df2.colOf L with
    | none => rfl
    | some c => simp
  | cons p rest ih =>
    intro df df2 h
    obtain ⟨dfm, hstep, hrest⟩ := foldE_cons_ok_inv _ _ _ _ _ h
    have hs2 : (if df.cols.any (fun q => q.1 == p.1) then
        Except.ok (⟨df.index, bumpCol df.cols p.1 p.2⟩ : DF)
      else (Except.error ScrapeErr.keyFail : Except ScrapeErr DF)) = Except.ok dfm := hstep
    by_cases hany : df.cols.any (fun q => q.1 == p.1)
    · rw [if_pos hany] at hs2
      injection hs2 with hs2
      subst hs2
      obtain ⟨h1, h2⟩ := ih _ df2 hrest
      refine ⟨h1, ?_⟩
      intro L
      rw [h2 L]
      by_cases hL : p.1 = L
      · subst hL
        have hbump : DF.colOf ⟨df.index, bumpCol df.cols p.1 p.2⟩ p.1 =
            (df.colOf p.1).map (fun c => c.map (fun o => o.map (fun x => x + p.2))) :=
          bumpCol_find_self df.cols p.1 p.2
        rw [hbump, map_map_optcol]
        have hsum : sumFor p.1 (p :: rest) = p.2 + sumFor p.1 rest := by
          simp [sumFor]
        rw [hsum]
      · have hbump : DF.colOf ⟨df.index, bumpCol df.cols p.1 p.2⟩ L = df.colOf L := by
          unfold DF.colOf
          rw [bumpCol_find_other df.cols p.1 L p.2 hL]
        rw [hbump]
        have hsum : sumFor L (p :: rest) = sumFor L rest := by
          simp only [sumFor, List.filter_cons]
          rw [if_neg (by simp [hL])]
        rw [hsum]
    · rw [if_neg hany] at hs2
      exact absurd hs2 (fun hc => Except.noConfusion hc)

end MLL

namespace MLL

theorem scrape_ok_inv (start stop : Option Date) (resp : List TimeSeries) (txt : String)
    (df : DF) (h : scrape start stop resp txt = .ok df) :
    ∃ u df0 dl, buildUrl start stop = .ok u ∧ buildDF resp = .ok df0 ∧
      datumList txt = .ok dl ∧ addDatum df0 dl = .ok df := by
  unfold scrape at h
  cases hu : buildUrl start stop with
  | error e => rw [hu] at h; exact Except.noConfusion h
  | ok u =>
    rw [hu] at h
    cases hb : buildDF resp with
    | error e => rw [hb] at h; exact Except.noConfusion h
    | ok df0 =>
      rw [hb] at h
      cases hd : datumList txt with
      | error e => rw [hd] at h; exact Except.noConfusion h
      | ok dl =>
        rw [hd] at h
        exact ⟨u, df0, dl, rfl, rfl, rfl, h⟩

theorem alookup_ne_nil (d : List (String × Rat)) (t : String) (g : Rat)
    (h : alookup d t = some g) : d ≠ [] := by
  intro hnil
  subst hnil
  simp [alookup] at h

/-- C3 amended: let `s` be the last series of the response whose
derived lake name is `L`, with parsed readings `prs` and (last) height
`g` at timestamp `t`, and let the metadata response list the datum for
`L` exactly once, as `e`.  If the scrape succeeds and `t` survives in
the returned table's index (the index is fixed by the first series:
readings of later series at other timestamps are dropped by column
alignment), then the returned value for `L` at `t` is `g + e`. -/
theorem claim_C3_amended (start stop : Option Date) (tsResp : List TimeSeries)
    (datumText : String) (df : DF) (pre post : List TimeSeries) (s : TimeSeries)
    (L : String) (prs : List (String × Rat)) (t : String) (g e : Rat)
    (dl : List (String × Rat))
    (hscrape : scrape start stop tsResp datumText = .ok df)
    (hsplit : tsResp = pre ++ s :: post)
    (hfn : formatName s.siteName.toList = some L)
    (hpost : ∀ ts ∈ post, formatName ts.siteName.toList ≠ some L)
    (hprs : seriesPairs s = some prs)
    (hg : alookup (pyDict prs) t = some g)
    (hidx : t ∈ df.index)
    (hdl : datumList datumText = .ok dl)
    (hfil : dl.filter (fun p => p.1 == L) = [(L, e)]) :
    df.cell L t = some (g + e) := by
  obtain ⟨u, df0, dl2, hu, hb, hd2, ha⟩ := scrape_ok_inv _ _ _ _ _ hscrape
  have hdleq : dl = dl2 := by
    rw [hdl] at hd2
    injection hd2 with h2
  subst hdleq
  obtain ⟨hai, hac⟩ := addDatum_ok dl df0 df ha
  rw [hsplit] at hb
  unfold buildDF at hb
  obtain ⟨dfp, hpre, hsp⟩ := foldE_append_ok_inv _ _ _ _ _ hb
  obtain ⟨dfs, hstep, hpost2⟩ := foldE_cons_ok_inv _ _ _ _ _ hsp
  obtain ⟨lake, hs, hfn2, hm, hdfs⟩ := processTS_ok_inv _ _ _ hstep
  have hlakeL : L = lake := by
    rw [hfn] at hfn2
    injection hfn2 with h2
  subst hlakeL
  have hprs2 : prs = (s.values.map (fun v => v.dateTime)).zip hs := by
    unfold seriesPairs at hprs
    rw [hm] at hprs
    have h2 : some ((s.values.map (fun v => v.dateTime)).zip hs) = some prs := hprs
    injection h2 with h2
    exact h2.symm
  subst hprs2
  subst hdfs
  set d := pyDict ((s.values.map (fun v => v.dateTime)).zip hs) with hd
  have hcell_and_ne : (dfp.setCol L d).cell L t = some g ∧
      (dfp.setCol L d).index.isEmpty = false := by
    by_cases hem : dfp.index.isEmpty
    · have hdfsidx := setCol_index_empty dfp L d hem
      have hdfscol := setCol_self_empty dfp L d hem
      obtain ⟨i, hfind, hget⟩ := adopt_lookup d t g hg
      constructor
      · exact cell_intro _ L t _ i g hdfscol (by rw [hdfsidx]; exact hfind) hget
      · rw [hdfsidx]
        cases hdnil : d with
        | nil => exact absurd hdnil (alookup_ne_nil d t g hg)
        | cons q rest => rfl
    · have hem2 : dfp.index.isEmpty = false := by
        cases hb2 : dfp.index.isEmpty with
        | false => rfl
        | true => exact absurd hb2 hem
      have hdfsidx := setCol_index_nonempty dfp L d hem2
      have hdfscol := setCol_self_nonempty dfp L d hem2
      have hnempty : (dfp.setCol L d).index.isEmpty = false := by
        rw [hdfsidx]
        exact hem2
      have hmem : t ∈ dfp.index := by
        obtain ⟨hidx0, _⟩ := buildDF_post_preserve L post _ df0 hpost2 hnempty hpost
        rw [hai, hidx0, hdfsidx] at hidx
        exact hidx
      obtain ⟨i, hfind, hget⟩ := findIdx?_mem_map dfp.index t (fun u => alookup d u) hmem
      constructor
      · refine cell_intro _ L t _ i g hdfscol (by rw [hdfsidx]; exact hfind) ?_
        rw [hget, hg]
      · exact hnempty
  obtain ⟨hcell, hnempty⟩ := hcell_and_ne
  obtain ⟨hidx0, hcol0⟩ := buildDF_post_preserve L post _ df0 hpost2 hnempty hpost
  have hcell0 : df0.cell L t = some g := by
    rw [cell_eq_of_colOf_index df0 _ L t hcol0 hidx0]
    exact hcell
  obtain ⟨c, i, hc, hi, hval⟩ := cell_onto df0 L t g hcell0
  have hsum : sumFor L dl = e := by
    unfold sumFor
    rw [hfil]
    simp
  have hcoldf : df.colOf L = some (c.map (fun o => o.map (fun x => x + e))) := by
    rw [hac L, hc, hsum]
    rfl
  refine cell_intro df L t _ i (g + e) hcoldf (by rw [hai]; exact hi) ?_
  rw [List.get?_map, hval]
  rfl

end MLL

namespace MLL

theorem keys_replace (cols : List (String × List (Option Rat))) (name : String)
    (c : List (Option Rat)) :
    (cols.map (fun p => if p.1 == name then (p.1, c) else p)).map (fun p => p.1) =
      cols.map (fun p => p.1) := by
  induction cols with
  | nil => rfl
  | cons q qs ih =>
    simp only [List.map_cons]
    by_cases hq : q.1 = name
    · rw [if_pos (by simp [hq])]
      rw [ih]
    · rw [if_neg (by simp [hq])]
      rw [ih]

theorem updateAssoc_keys_mem (cols : List (String × List (Option Rat))) (name : String)
    (c : List (Option Rat)) (L : String) :
    L ∈ (updateAssoc cols name c).map (fun p => p.1) ↔
      L ∈ cols.map (fun p => p.1) ∨ L = name := by
  unfold updateAssoc
  by_cases h : cols.any (fun p => p.1 == name)
  · rw [if_pos h, keys_replace]
    constructor
    · exact Or.inl
    · intro hc
      rcases hc with hc | rfl
      · exact hc
      · obtain ⟨p, hp, hpb⟩ := List.any_eq_true.mp h
        have : p.1 = L := by simpa using hpb
        exact this ▸ List.mem_map_of_mem (fun p => p.1) hp
  · rw [if_neg h, List.map_append]
    simp

theorem updateAssoc_keys_nodup (cols : List (String × List (Option Rat))) (name : String)
    (c : List (Option Rat)) (h : (cols.map (fun p => p.1)).Nodup) :
    ((updateAssoc cols name c).map (fun p => p.1)).Nodup := by
  unfold updateAssoc
  by_cases hany : cols.any (fun p => p.1 == name)
  · rw [if_pos hany, keys_replace]
    exact h
  · rw [if_neg hany, List.map_append]
    have hnot : name ∉ cols.map (fun p => p.1) := by
      intro hmem
      obtain ⟨p, hp, hpeq⟩ := List.mem_map.mp hmem
      exact hany (List.any_eq_true.mpr ⟨p, hp, by simp [hpeq]⟩)
    simp [List.nodup_append, h, hnot]

theorem keys_reindex (cols : List (String × List (Option Rat))) (x : List (Option Rat)) :
    (cols.map (fun p => (p.1, x))).map (fun p => p.1) = cols.map (fun p => p.1) := by
  rw [List.map_map]
  rfl

theorem setCol_keys_mem (df : DF) (name : String) (d : List (String × Rat)) (L : String) :
    L ∈ (df.setCol name d).cols.map (fun p => p.1) ↔
      L ∈ df.cols.map (fun p => p.1) ∨ L = name := by
  unfold DF.setCol
  by_cases h : df.index.isEmpty
  · rw [if_pos h]
    show L ∈ (updateAssoc (df.cols.map fun p => (p.1, d.map fun _ => none)) name
        (d.map fun p => some p.2)).map (fun p => p.1) ↔ _
    rw [updateAssoc_keys_mem, keys_reindex]
  · rw [if_neg h]
    exact updateAssoc_keys_mem _ _ _ _

theorem setCol_keys_nodup (df : DF) (name : String) (d : List (String × Rat))
    (h : (df.cols.map (fun p => p.1)).Nodup) :
    ((df.setCol name d).cols.map (fun p => p.1)).Nodup := by
  unfold DF.setCol
  by_cases hem : df.index.isEmpty
  · rw [if_pos hem]
    refine updateAssoc_keys_nodup _ _ _ ?_
    rw [keys_reindex]
    exact h
  · rw [if_neg hem]
    exact updateAssoc_keys_nodup _ _ _ h

theorem buildDF_keys :
    ∀ (l : List TimeSeries) (df0 df1 : DF), foldE processTS df0 l = .ok df1 →
      ∃ names, mapO (fun ts => formatName ts.siteName.toList) l = some names ∧
        (∀ L, L ∈ df1.cols.map (fun p => p.1) ↔ L ∈ df0.cols.map (fun p => p.1) ∨ L ∈ names) ∧
        ((df0.cols.map (fun p => p.1)).Nodup → (df1.cols.map (fun p => p.1)).Nodup) := by
  intro l
  induction l with
  | nil =>
    intro df0 df1 h
    rw [foldE_nil_ok_inv _ _ _ h]
    exact ⟨[], rfl, by simp, id⟩
  | cons ts rest ih =>
    intro df0 df1 h
    obtain ⟨dfm, hstep, hrest⟩ := foldE_cons_ok_inv _ _ _ _ _ h
    obtain ⟨lake, hs, hfn, hm, rfl⟩ := processTS_ok_inv _ _ _ hstep
    obtain ⟨names, hnames, hmem, hnd⟩ := ih _ _ hrest
    refine ⟨lake :: names, ?_, ?_, ?_⟩
    · show mapO (fun ts => formatName ts.siteName.toList) (ts :: rest) = some (lake :: names)
      unfold mapO
      rw [hfn, hnames]
    · intro L
      rw [hmem L, setCol_keys_mem]
      constructor
      · intro hc
        rcases hc with (hc | rfl) | hc
        · exact Or.inl hc
        · exact Or.inr (by simp)
        · exact Or.inr (by simp [hc])
      · intro hc
        rcases hc with hc | hc
        · exact Or.inl (Or.inl hc)
        · rcases List.mem_cons.mp hc with rfl | hc2
          · exact Or.inl (Or.inr rfl)
          · exact Or.inr hc2
    · intro hnd0
      exact hnd (setCol_keys_nodup _ _ _ hnd0)

end MLL

namespace MLL

theorem dedupKeysFirst_sub : ∀ (l : List String) (k : String), k ∈ dedupKeysFirst l → k ∈ l := by
  intro l
  induction l with
  | nil => intro k h; cases h
  | cons a as ih =>
    intro k h
    unfold dedupKeysFirst at h
    rcases List.mem_cons.mp h with rfl | h2
    · exact List.mem_cons_self _ _
    · exact List.mem_cons_of_mem _ (ih k (List.mem_of_mem_filter h2))

theorem pyDict_keys_sub (s : List (String × Rat)) (k : String)
    (h : k ∈ (pyDict s).map (fun p => p.1)) : k ∈ s.map (fun p => p.1) := by
  obtain ⟨pair, hpair, hk⟩ := List.mem_map.mp h
  unfold pyDict at hpair
  obtain ⟨k0, hk0, heq⟩ := List.mem_filterMap.mp hpair
  have hfst : pair.1 = k0 := by
    cases hlast : (s.filter (fun p => p.1 == k0)).getLast? with
    | none => rw [hlast] at heq; exact Option.noConfusion heq
    | some p =>
      rw [hlast] at heq
      have : (k0, p.2) = pair := by
        injection heq with h2
      rw [← this]
  rw [← hk, hfst]
  exact dedupKeysFirst_sub _ k0 hk0

theorem zip_fst_sub (a : List String) (b : List Rat) (t : String)
    (h : t ∈ (a.zip b).map (fun p => p.1)) : t ∈ a := by
  obtain ⟨pair, hpair, ht⟩ := List.mem_map.mp h
  have := List.of_mem_zip hpair
  rw [← ht]
  exact this.1

theorem buildDF_index_src :
    ∀ (l : List TimeSeries) (df0 df1 : DF), foldE processTS df0 l = .ok df1 →
      ∀ t ∈ df1.index, t ∈ df0.index ∨ ∃ ts, ts ∈ l ∧ ∃ v, v ∈ ts.values ∧ v.dateTime = t := by
  intro l
  induction l with
  | nil =>
    intro df0 df1 h t ht
    rw [foldE_nil_ok_inv _ _ _ h] at ht
    exact Or.inl ht
  | cons ts rest ih =>
    intro df0 df1 h t ht
    obtain ⟨dfm, hstep, hrest⟩ := foldE_cons_ok_inv _ _ _ _ _ h
    obtain ⟨lake, hs, hfn, hm, rfl⟩ := processTS_ok_inv _ _ _ hstep
    rcases ih _ _ hrest t ht with hmid | ⟨ts2, hts2, hv⟩
    · by_cases hem : df0.index.isEmpty
      · rw [setCol_index_empty _ _ _ hem] at hmid
        have h1 : t ∈ ((ts.values.map (fun v => v.dateTime)).zip hs).map (fun p => p.1) :=
          pyDict_keys_sub _ t hmid
        have h2 : t ∈ ts.values.map (fun v => v.dateTime) := zip_fst_sub _ _ t h1
        obtain ⟨v, hv, hvt⟩ := List.mem_map.mp h2
        exact Or.inr ⟨ts, List.mem_cons_self _ _, v, hv, hvt⟩
      · have hem2 : df0.index.isEmpty = false := by
          cases hb2 : df0.index.isEmpty with
          | false => rfl
          | true => exact absurd hb2 hem
        rw [setCol_index_nonempty _ _ _ hem2] at hmid
        exact Or.inl hmid
    · exact Or.inr ⟨ts2, List.mem_cons_of_mem _ hts2, hv⟩

theorem addDatum_ok_keys (datum : List (String × Rat)) :
    ∀ (df df2 : DF), addDatum df datum = .ok df2 →
      df2.cols.map (fun p => p.1) = df.cols.map (fun p => p.1) := by
  induction datum with
  | nil =>
    intro df df2 h
    rw [foldE_nil_ok_inv _ _ _ h]
  | cons p rest ih =>
    intro df df2 h
    obtain ⟨dfm, hstep, hrest⟩ := foldE_cons_ok_inv _ _ _ _ _ h
    have hs2 : (if df.cols.any (fun q => q.1 == p.1) then
        Except.ok (⟨df.index, bumpCol df.cols p.1 p.2⟩ : DF)
      else (Except.error ScrapeErr.keyFail : Except ScrapeErr DF)) = Except.ok dfm := hstep
    by_cases hany : df.cols.any (fun q => q.1 == p.1)
    · rw [if_pos hany] at hs2
      injection hs2 with hs2
      subst hs2
      rw [ih _ df2 hrest]
      exact bumpCol_keys _ _ _
    · rw [if_neg hany] at hs2
      exact absurd hs2 (fun hc => Except.noConfusion hc)

end MLL

namespace MLL

/-- C3 counterexample: in `c3Resp` the monona series reports gage
height `8` at `2018-10-02T00:00` and the metadata reports datum `2`
for monona, yet the returned table holds no value for monona at that
timestamp (the index was fixed by the mendota series, so the reading
was dropped), not `8 + 2` as the claim requires. -/
theorem claim_C3_counterexample :
    scrape none none c3Resp c3Text = .ok c3DF ∧
    seriesPairs ⟨"LAKE MONONA AT MADISON, WI",
        [⟨"2018-10-01T00:00", "7.0"⟩, ⟨"2018-10-02T00:00", "8.0"⟩]⟩ =
      some [("2018-10-01T00:00", 7), ("2018-10-02T00:00", 8)] ∧
    alookup (pyDict [("2018-10-01T00:00", 7), ("2018-10-02T00:00", 8)])
        "2018-10-02T00:00" = some 8 ∧
    datumList c3Text = .ok [("mendota", (4226 : Rat) / 5), ("monona", 2)] ∧
    c3DF.cell "monona" "2018-10-02T00:00" = none ∧
    c3DF.cell "monona" "2018-10-02T00:00" ≠ some (8 + 2) := by
  refine ⟨rfl, rfl, rfl, rfl, rfl, ?_⟩
  decide

/-- C3 witness: at the shared timestamp the amended claim applies —
monona's reading `7` plus its datum `2` is returned. -/
theorem claim_C3_witness :
    c3DF.cell "monona" "2018-10-01T00:00" = some (7 + 2) := by
  have hdl : datumList c3Text = .ok [("mendota", (4226 : Rat) / 5), ("monona", 2)] := rfl
  have hprs : seriesPairs ⟨"LAKE MONONA AT MADISON, WI",
      [⟨"2018-10-01T00:00", "7.0"⟩, ⟨"2018-10-02T00:00", "8.0"⟩]⟩ =
      some [("2018-10-01T00:00", 7), ("2018-10-02T00:00", 8)] := rfl
  exact claim_C3_amended none none c3Resp c3Text c3DF
    [⟨"LAKE MENDOTA AT MADISON, WI", [⟨"2018-10-01T00:00", "5.0"⟩]⟩] []
    ⟨"LAKE MONONA AT MADISON, WI",
      [⟨"2018-10-01T00:00", "7.0"⟩, ⟨"2018-10-02T00:00", "8.0"⟩]⟩
    "monona" [("2018-10-01T00:00", 7), ("2018-10-02T00:00", 8)] "2018-10-01T00:00" 7 2
    [("mendota", (4226 : Rat) / 5), ("monona", 2)]
    rfl rfl rfl (fun ts h => absurd h (List.not_mem_nil ts)) hprs rfl
    (by decide) hdl (by decide)

/-- C9 counterexample: with a valid `[start, end]` range, a response
whose single site is `LAKE FOO AT BAR, WI` with a reading dated outside
the range yields a table whose columns are not the four lake names and
whose timestamp does not fall within `[start, end]` — the code neither
filters timestamps nor fixes the column set. -/
theorem claim_C9_counterexample :
    scrape (some ⟨2020, 1, 1⟩) (some ⟨2020, 1, 2⟩) c9Resp c9Text = .ok c9DF ∧
    c9DF.cols.map (fun p => p.1) ≠ fourLakes ∧
    "2019-06-01T00:00" ∈ c9DF.index ∧
    tsInRange "2019-06-01T00:00" ⟨2020, 1, 1⟩ ⟨2020, 1, 2⟩ = false := by
  refine ⟨rfl, by decide, by decide, by decide⟩

/-- C9 amended: for valid `(start, end)` the returned table's columns
are exactly the lake names derived from the response's site display
names (without duplicates), and every row timestamp is one reported in
the response — so the timestamps fall within `[start, end]`, and the
columns are the four lake names, exactly when the remote service
honors the requested range and reports the four expected sites. -/
theorem claim_C9_amended (d1 d2 : Date) (resp : List TimeSeries) (txt : String) (df : DF)
    (h : scrape (some d1) (some d2) resp txt = .ok df) :
    (∃ names, mapO (fun ts => formatName ts.siteName.toList) resp = some names ∧
      (∀ L, L ∈ df.cols.map (fun p => p.1) ↔ L ∈ names) ∧
      (df.cols.map (fun p => p.1)).Nodup) ∧
    (∀ t ∈ df.index, ∃ ts, ts ∈ resp ∧ ∃ v, v ∈ ts.values ∧ v.dateTime = t) ∧
    ((∀ ts ∈ resp, ∀ v ∈ ts.values, tsInRange v.dateTime d1 d2 = true) →
      ∀ t ∈ df.index, tsInRange t d1 d2 = true) := by
  obtain ⟨u, df0, dl, hu, hb, hd, ha⟩ := scrape_ok_inv _ _ _ _ _ h
  unfold buildDF at hb
  obtain ⟨hai, _⟩ := addDatum_ok dl df0 df ha
  have hkeys := addDatum_ok_keys dl df0 df ha
  obtain ⟨names, hnames, hmem, hnd⟩ := buildDF_keys resp ⟨[], []⟩ df0 hb
  have hsrc := buildDF_index_src resp ⟨[], []⟩ df0 hb
  refine ⟨⟨names, hnames, ?_, ?_⟩, ?_, ?_⟩
  · intro L
    rw [hkeys, hmem L]
    simp
  · rw [hkeys]
    exact hnd (by simp)
  · intro t ht
    rw [hai] at ht
    rcases hsrc t ht with hnil | hsome
    · cases hnil
    · exact hsome
  · intro hall t ht
    rw [hai] at ht
    rcases hsrc t ht with hnil | ⟨ts, hts, v, hv, hvt⟩
    · cases hnil
    · rw [← hvt]
      exact hall ts hts v hv

/-- C9 witness: the amended theorem applied to the concrete run — the
single column is the derived name and the timestamp comes from the
response. -/
theorem claim_C9_witness :
    (∀ t ∈ c9DF.index, ∃ ts, ts ∈ c9Resp ∧ ∃ v, v ∈ ts.values ∧ v.dateTime = t) ∧
    (c9DF.cols.map (fun p => p.1)).Nodup :=
  ⟨(claim_C9_amended ⟨2020, 1, 1⟩ ⟨2020, 1, 2⟩ c9Resp c9Text c9DF rfl).2.1,
   (claim_C9_amended ⟨2020, 1, 1⟩ ⟨2020, 1, 2⟩ c9Resp c9Text c9DF rfl).1.choose_spec.2.2⟩

end MLL
